import Mathlib

/-!
Verification development for the turborpc RPC server (Go).

The Go source is shallowly embedded below:

* `Ty` models `reflect.Type` identities as the service layer consumes them
  (`Ty.str` is `reflect.Type.String()`).
* `GoError` models Go `error` values: a message plus the set of sentinel
  identities reachable through the `%w` wrap chain, so that `errorsIs`
  models `errors.Is`.  `fmt.Errorf` wrapping patterns used by the source
  are embedded as `errorfSW`, `errorfWQ`, `errorfWW`.
* Decoded Go values are abstract tokens (`Val`); the JSON codec
  (`encoding/json`, an external collaborator) is a parameter (`Codec`).
* The SHA-1 digest (`crypto/sha1`, an external collaborator) is a
  parameter `digest : String → String` applied to the accumulated bytes
  written into a `Hasher` (modelling `hash.Hash.Write`/`Sum`).
* Go maps (`Server.services`, `service.methods`) are association lists;
  `mapLookup` is map indexing.  Map iteration order is nondeterministic in
  Go, so metadata assembly is additionally stated over arbitrary
  enumerations (`Service.metadataFrom`, `Server.metadataRun`).
-/

namespace TurboRPC

/-- Go type identity as used by the service layer (a `reflect.Type`). -/
inductive Ty : Type where
  | context : Ty
  | goError : Ty
  | ptr : Ty → Ty
  | named : String → Ty
deriving DecidableEq, Repr

/-- Embeds `reflect.Type.String()`, the stable textual identity of a type. -/
def Ty.str : Ty → String
  | .context => "context.Context"
  | .goError => "error"
  | .ptr e => "*" ++ e.str
  | .named s => s

/-- Go `error` value: its `Error()` message and the identities of all
sentinel errors reachable through its `%w` wrap chain (the error's own
identity included), so `errorsIs` can model `errors.Is`. -/
structure GoError : Type where
  msg : String
  bases : List Nat
deriving DecidableEq, Repr

/-- Embeds `errors.New` for a package-level sentinel error with a unique
identity. -/
def GoError.sentinel (id : Nat) (m : String) : GoError := ⟨m, [id]⟩

/-- Embeds `errors.Is err target` for a sentinel `target`: the target's
identity occurs in the wrap chain of `err`. -/
def errorsIs (e target : GoError) : Bool :=
  target.bases.all (fun b => e.bases.contains b)

/-- Embeds `fmt.Errorf("%s: %w", s, e)`. -/
def errorfSW (s : String) (e : GoError) : GoError :=
  ⟨s ++ ": " ++ e.msg, e.bases⟩

/-- Embeds `fmt.Errorf("%w %q", e, s)`. -/
def errorfWQ (e : GoError) (s : String) : GoError :=
  ⟨e.msg ++ " \"" ++ s ++ "\"", e.bases⟩

/-- Embeds `fmt.Errorf("%w: %w", a, b)`: both wrap chains are reachable. -/
def errorfWW (a b : GoError) : GoError :=
  ⟨a.msg ++ ": " ++ b.msg, a.bases ++ b.bases⟩

/-- Sentinel `ErrReservedServiceName` (turborpc.go). -/
def ErrReservedServiceName : GoError :=
  GoError.sentinel 0 "this service name is reserved"

/-- Sentinel `ErrInvalidService` (turborpc.go). -/
def ErrInvalidService : GoError :=
  GoError.sentinel 1 "service must have one or more exported methods"

/-- Sentinel `ErrServiceRegistered` (turborpc.go). -/
def ErrServiceRegistered : GoError :=
  GoError.sentinel 2 "service name already registered"

/-- Sentinel `ErrMethodErrored` (turborpc.go). -/
def ErrMethodErrored : GoError :=
  GoError.sentinel 3 "method errored"

/-- Sentinel `errServiceNotFound` (turborpc.go). -/
def errServiceNotFound : GoError :=
  GoError.sentinel 4 "could not find service"

/-- Sentinel `errMethodNotFound` (turborpc.go). -/
def errMethodNotFound : GoError :=
  GoError.sentinel 5 "could not find method"

/-- Sentinel `errNoService` (turborpc.go). -/
def errNoService : GoError :=
  GoError.sentinel 6 "no service specified"

/-- Sentinel `errNoMethod` (turborpc.go). -/
def errNoMethod : GoError :=
  GoError.sentinel 7 "no method specified"

/-- Sentinel `errNoInput` (client.go). -/
def errNoInput : GoError :=
  GoError.sentinel 8 "no input"

/-- Sentinel `errDecodingInput` (client.go). -/
def errDecodingInput : GoError :=
  GoError.sentinel 9 "decoding input"

/-- Sentinel `errEncodingOutput` (client.go). -/
def errEncodingOutput : GoError :=
  GoError.sentinel 10 "encoding output"

/-- Raw wire bytes (`[]byte`). -/
abbrev Bytes := String

/-- Abstract decoded Go value token. -/
abbrev Val := String

/-- The request context (`context.Context`), opaque to the core. -/
abbrev Ctx := Unit

/-- Shape in which a decoded argument reaches the callee: a pointer-typed
argument is passed as the freshly allocated pointer (`byRef`), a value-typed
argument is dereferenced back to a value after decoding (`byVal`). -/
inductive Arg : Type where
  | byRef : Val → Arg
  | byVal : Val → Arg
deriving DecidableEq, Repr

/-- The wire codec (`encoding/json`), an external collaborator:
`unmarshal t bs` decodes `bs` into a freshly allocated value of type `t`
(`json.Unmarshal`), `marshal v` encodes a value (`json.Marshal`). -/
structure Codec : Type where
  unmarshal : Ty → Bytes → Except GoError Val
  marshal : Val → Except GoError Bytes

/-- A reflected method (`reflect.Method`): its name, exportedness, the
parameter types `m.Type.In(0) .. In(NumIn-1)` (receiver at index 0) and the
result types `m.Type.Out(0) .. Out(NumOut-1)`. -/
structure RMethod : Type where
  name : String
  exported : Bool
  ins : List Ty
  outs : List Ty
deriving DecidableEq, Repr

/-- Embeds `isSuitableMethod` (service.go):
`NumIn() > 1 && NumIn() < 4 && NumOut() > 0 && NumOut() < 3`, exported,
`In(1) == typeOfContext`, and the last result is `error`. -/
def isSuitableMethod (m : RMethod) : Bool :=
  let correctInputsAndOutputs :=
    decide (m.ins.length > 1) && decide (m.ins.length < 4) &&
    decide (m.outs.length > 0) && decide (m.outs.length < 3)
  if !m.exported || !correctInputsAndOutputs
      || !(m.ins.get? 1 == some Ty.context)
      || ((m.outs.length == 1) && !(m.outs.get? 0 == some Ty.goError))
      || ((m.outs.length == 2) && !(m.outs.get? 1 == some Ty.goError)) then
    false
  else
    true

/-- One method of a registered object: its reflected declaration together
with the bound implementation (`s.value.Method(i)`).  The implementation
receives the context and the decoded argument (`none` when the signature has
no business argument) and yields the `reflect.Call` results: the first
output value (meaningful only when the signature declares a reply) and the
error output. -/
structure ObjMethod : Type where
  decl : RMethod
  impl : Ctx → Option Arg → Val × Option GoError

/-- A registered Go object together with its reflected method set
(`reflect.Type.NumMethod`/`Method(i)`; for concrete Go types reflection
surfaces only exported methods). -/
structure GoObj : Type where
  methods : List ObjMethod

/-- Embeds `validServiceType` (turborpc.go): `typ.NumMethod() > 0`. -/
def validServiceType (obj : GoObj) : Bool :=
  obj.methods.length > 0

/-- Embeds the `method` descriptor struct (client.go). -/
structure Method : Type where
  name : String
  input : Option Ty
  output : Option Ty
  fn : Ctx → Option Arg → Val × Option GoError

/-- Embeds `newMethod` (client.go): `input = In(2)` when `NumIn() == 3`,
`output = Out(0)` when `NumOut() == 2`. -/
def newMethod (m : RMethod) (fn : Ctx → Option Arg → Val × Option GoError) :
    Method :=
  { name := m.name
    input := if m.ins.length == 3 then m.ins.get? 2 else none
    output := if m.outs.length == 2 then m.outs.get? 0 else none
    fn := fn }

/-- Embeds `method.decodeInput` (client.go), whose receiver field `m.input`
is the given `ity` (`invoke` only calls it when the input type is non-nil):
empty input is `errNoInput`; a pointer input type allocates the pointee,
decodes into it and passes the pointer as declared; a value input type
allocates, decodes and dereferences back to a value. -/
def decodeInput (codec : Codec) (ity : Ty) (input : Bytes) :
    Except GoError Arg :=
  if input.length == 0 then
    .error errNoInput
  else
    match ity with
    | Ty.ptr e => (codec.unmarshal e input).map Arg.byRef
    | t => (codec.unmarshal t input).map Arg.byVal

/-- Embeds the tail of `method.invoke` (client.go) after `m.fn.Call`:
destructure `(resp, errv)` by the declared output; a non-nil error is
returned verbatim; an invalid `resp` (no declared output) yields
`(nil, nil)`; otherwise the reply is marshalled, a failure being wrapped in
`errEncodingOutput`. -/
def finishCall (m : Method) (codec : Codec) (outputs : Val × Option GoError) :
    Option Bytes × Option GoError :=
  match outputs.2 with
  | some e => (none, some e)
  | none =>
    match m.output with
    | none => (none, none)
    | some _ =>
      match codec.marshal outputs.1 with
      | .error e => (none, some (errorfWW errEncodingOutput e))
      | .ok buf => (some buf, none)

/-- Embeds `method.invoke` (client.go): no declared input calls the bound
function with only the context; otherwise the body is decoded first, a
decode failure being wrapped in `errDecodingInput`. -/
def Method.invoke (m : Method) (codec : Codec) (ctx : Ctx) (bs : Bytes) :
    Option Bytes × Option GoError :=
  match m.input with
  | none => finishCall m codec (m.fn ctx none)
  | some ity =>
    match decodeInput codec ity bs with
    | .error e => (none, some (errorfWW errDecodingInput e))
    | .ok arg => finishCall m codec (m.fn ctx (some arg))

/-- Embeds `methodMetadata` (metadata assembly, example_test.go part). -/
structure methodMetadata : Type where
  Name : String
  Input : Option Ty
  Output : Option Ty
deriving DecidableEq, Repr

/-- Embeds `serviceMetadata`. -/
structure serviceMetadata : Type where
  Name : String
  Methods : List methodMetadata
  Version : String
deriving DecidableEq, Repr

/-- Embeds `serverMetadata`. -/
structure serverMetadata : Type where
  Name : String
  Services : List serviceMetadata
  Version : String
deriving DecidableEq, Repr

/-- Embeds `sort.Slice(xs, func(i, j) { xs[i].Name < xs[j].Name })`: sort by
a string key (the algorithm `sort.Slice` uses is unspecified; any sort
agrees with insertion sort on name-distinct entries). -/
def sortByKey {α : Type} (key : α → String) (l : List α) : List α :=
  List.insertionSort (fun a b => key a ≤ key b) l

/-- Embeds a `hash.Hash` (`sha1.New()`): `Write` accumulates bytes. -/
structure Hasher : Type where
  acc : String
deriving DecidableEq, Repr

/-- Embeds `sha1.New()`. -/
def Hasher.new : Hasher := ⟨""⟩

/-- Embeds `hash.Write([]byte(s))`. -/
def Hasher.write (h : Hasher) (s : String) : Hasher := ⟨h.acc ++ s⟩

/-- Embeds `fmt.Sprintf("%x", hash.Sum(nil))`; the SHA-1 digest itself
(`crypto/sha1`, an external collaborator) is the parameter `digest` applied
to the accumulated written bytes. -/
def Hasher.sum (digest : String → String) (h : Hasher) : String :=
  digest h.acc

/-- Embeds `calculateMethodVersion` (example_test.go part): hash the method
name, then the input type identity if present, then the output type identity
if present. -/
def calculateMethodVersion (digest : String → String) (md : methodMetadata) :
    String :=
  let h := Hasher.new.write md.Name
  let h := match md.Input with
    | some t => h.write t.str
    | none => h
  let h := match md.Output with
    | some t => h.write t.str
    | none => h
  h.sum digest

/-- Embeds `calculateServiceVersion`: hash the service name, then each
method's version in the order the metadata lists them (name-sorted). -/
def calculateServiceVersion (digest : String → String) (md : serviceMetadata) :
    String :=
  let h := Hasher.new.write md.Name
  let h := md.Methods.foldl (fun h m => h.write (calculateMethodVersion digest m)) h
  h.sum digest

/-- Embeds the `service` struct (service.go); `methods` is the Go map
`map[string]*method` as an association list keyed by method name. -/
structure Service : Type where
  name : String
  version : String
  methods : List (String × Method)

/-- Embeds Go map indexing `m[k]` with its comma-ok form. -/
def mapLookup {β : Type} (m : List (String × β)) (k : String) : Option β :=
  (m.find? (fun p => p.1 == k)).map (fun p => p.2)

/-- Embeds `method.metadata` (example_test.go part). -/
def Method.metadata (m : Method) : methodMetadata :=
  ⟨m.name, m.input, m.output⟩

/-- Embeds `service.metadata` evaluated over one enumeration `e` of the
`s.methods` map (Go map iteration order is arbitrary): collect each
method's metadata and sort by name. -/
def Service.metadataFrom (s : Service) (e : List (String × Method)) :
    serviceMetadata :=
  { Name := s.name
    Methods := sortByKey methodMetadata.Name (e.map (fun p => p.2.metadata))
    Version := s.version }

/-- The canonical run of `service.metadata` (enumerating the stored list). -/
def Service.metadata (s : Service) : serviceMetadata :=
  s.metadataFrom s.methods

/-- Embeds `newService` (service.go): keep the suitable methods keyed by
name, then compute the service version from the resulting metadata (the
method-registration logger is pure observability and is not modelled). -/
def newService (digest : String → String) (name : String) (obj : GoObj) :
    Service :=
  let s0 : Service :=
    { name := name
      version := ""
      methods :=
        (obj.methods.filter (fun om => isSuitableMethod om.decl)).map
          (fun om => (om.decl.name, newMethod om.decl om.impl)) }
  { s0 with version := calculateServiceVersion digest s0.metadata }

/-- A generated client artefact (`sourceClient`, client.go). -/
structure SourceClient : Type where
  ContentType : String
  SourceCode : String

/-- The reserved aggregate-class name `defaultRPCClassName`. -/
def defaultRPCClassName : String := "RPC"

/-- Embeds the `Server` struct (turborpc.go): the error filter, the service
map as an association list, the optional GET client generator, and the
server version string used in metadata assembly. -/
structure Server : Type where
  errorFilter : Option (GoError → Option GoError)
  services : List (String × Service)
  serveClient : Option (serverMetadata → SourceClient)
  version : String

/-- Embeds `NewServer()` before options are applied: no filter, no services,
no client generator. -/
def NewServer : Server :=
  { errorFilter := none, services := [], serveClient := none, version := "" }

/-- Embeds `Server.RegisterName` (turborpc.go); the mutation of
`rpc.services` is explicit state passing, so the result is the updated
server paired with the returned error. -/
def Server.registerName (rpc : Server) (digest : String → String)
    (name : String) (r : GoObj) : Server × Option GoError :=
  if name == defaultRPCClassName then
    (rpc, some (errorfSW name ErrReservedServiceName))
  else if (mapLookup rpc.services name).isSome then
    (rpc, some (errorfSW name ErrServiceRegistered))
  else if !validServiceType r then
    (rpc, some ErrInvalidService)
  else
    ({ rpc with services := rpc.services ++ [(name, newService digest name r)] },
      none)

/-- Embeds `Server.call` (turborpc.go): look up the service, then the
method, else delegate to `method.invoke`. -/
def Server.call (rpc : Server) (codec : Codec) (ctx : Ctx)
    (service method : String) (input : Bytes) :
    Option Bytes × Option GoError :=
  match mapLookup rpc.services service with
  | none => (none, some (errorfWQ errServiceNotFound service))
  | some s =>
    match mapLookup s.methods method with
    | none => (none, some (errorfWQ errMethodNotFound method))
    | some m => m.invoke codec ctx input

/-- An inbound HTTP request as `ServeHTTP` consumes it: the HTTP verb, the
two query parameters (`url.Values.Get` yields `""` for an absent key) and
the fully read body (`io.ReadAll` errors are a transport concern outside
the claims and are not modelled). -/
structure HttpRequest : Type where
  verb : String
  queryService : String
  queryMethod : String
  body : Bytes

/-- The body a response carries. -/
inductive HttpBody : Type where
  | errorBody : Nat → String → HttpBody
  | outputBody : Bytes → HttpBody
  | notFoundText : HttpBody
  | clientSource : String → String → HttpBody
deriving DecidableEq, Repr

/-- The observable HTTP response: status code and body. -/
structure HttpResponse : Type where
  status : Nat
  body : HttpBody
deriving DecidableEq, Repr

/-- Embeds `Error` (turborpc.go): reply with the error envelope
`errorResponse` carrying the code and message. -/
def errorReply (message : String) (code : Nat) : HttpResponse :=
  ⟨code, .errorBody code message⟩

/-- Embeds `httpError` (turborpc.go): a nil error is replaced by the
`ErrMethodErrored` sentinel message. -/
def httpError (code : Nat) (err : Option GoError) : HttpResponse :=
  match err with
  | none => errorReply ErrMethodErrored.msg code
  | some e => errorReply e.msg code

/-- Embeds `httpOK` (turborpc.go): a 200 reply with the `outputResponse`
envelope. -/
def httpOK (output : Bytes) : HttpResponse :=
  ⟨200, .outputBody output⟩

/-- Embeds `nullJSON = []byte("null")`. -/
def nullJSON : Bytes := "null"

/-- Embeds `Server.metadata` over explicit enumerations of the service map
and of each service's method map (`metadataRun rpc e f`: `e` enumerates
`rpc.services`, `f n` enumerates the method map of the service registered
under `n`): collect each service's metadata and sort by name. -/
def Server.metadataRun (rpc : Server) (e : List (String × Service))
    (f : String → List (String × Method)) : serverMetadata :=
  { Name := defaultRPCClassName
    Services := sortByKey serviceMetadata.Name
      (e.map (fun p => p.2.metadataFrom (f p.1)))
    Version := rpc.version }

/-- The canonical run of `Server.metadata` (enumerating the stored lists). -/
def Server.metadata (rpc : Server) : serverMetadata :=
  { Name := defaultRPCClassName
    Services := sortByKey serviceMetadata.Name
      (rpc.services.map (fun p => p.2.metadata))
    Version := rpc.version }

/-- Embeds `generateClientFromTemplate` (client.go): type registration with
the descriptor bridge and `text/template` execution are deterministic
external collaborators, abstracted as the pure rendering function
`render`; generation is its application to the assembled metadata. -/
def generateClientFromTemplate (render : serverMetadata → String)
    (metadata : serverMetadata) : String :=
  render metadata

/-- The tail of `Server.ServeHTTP` (turborpc.go) once the GET
client-serving shortcut does not apply: verb check, required identifiers,
dispatch and the status-class mapping of its outcome. -/
def Server.servePost (rpc : Server) (codec : Codec) (ctx : Ctx)
    (r : HttpRequest) : HttpResponse :=
  if r.verb != "POST" then
    ⟨404, .notFoundText⟩
  else if r.queryService == "" then
    httpError 400 (some errNoService)
  else if r.queryMethod == "" then
    httpError 400 (some errNoMethod)
  else
    match rpc.call codec ctx r.queryService r.queryMethod r.body with
    | (_, some err) =>
      if errorsIs err errServiceNotFound || errorsIs err errMethodNotFound then
        httpError 404 (some err)
      else if errorsIs err errEncodingOutput then
        httpError 500 (some err)
      else
        match rpc.errorFilter with
        | some filter => httpError 400 (filter err)
        | none => httpError 400 (some err)
    | (none, none) => httpOK nullJSON
    | (some buf, none) => httpOK buf

/-- Embeds `Server.ServeHTTP` (turborpc.go). -/
def Server.serveHTTP (rpc : Server) (codec : Codec) (ctx : Ctx)
    (r : HttpRequest) : HttpResponse :=
  match rpc.serveClient with
  | some g =>
    if r.verb == "GET" then
      let sc := g rpc.metadata
      ⟨200, .clientSource sc.ContentType sc.SourceCode⟩
    else rpc.servePost codec ctx r
  | none => rpc.servePost codec ctx r

/-- Stated from the spec's words (for comparison with `isSuitableMethod`):
the §4.1 eligibility rule — the method's first parameter (after the
receiver) is a context value, the method takes at most one additional
business parameter, and it has one or two return values whose last is the
error type. -/
def specEligible (m : RMethod) : Bool :=
  (m.ins.get? 1 == some Ty.context) &&
  decide (m.ins.length ≤ 3) &&
  ((m.outs.length == 1) || (m.outs.length == 2)) &&
  (m.outs.getLast? == some Ty.goError)

theorem sortByKey_perm {α : Type} (key : α → String) (l : List α) :
    (sortByKey key l).Perm l :=
  List.perm_insertionSort _ l

theorem sortByKey_sorted {α : Type} (key : α → String) (l : List α) :
    (sortByKey key l).Pairwise (fun a b => key a ≤ key b) := by
  haveI : IsTotal α (fun a b => key a ≤ key b) :=
    ⟨fun a b => le_total (key a) (key b)⟩
  haveI : IsTrans α (fun a b => key a ≤ key b) :=
    ⟨fun _ _ _ h1 h2 => le_trans h1 h2⟩
  exact List.sorted_insertionSort _ l

theorem sortByKey_sorted_lt {α : Type} (key : α → String) (l : List α)
    (hnd : (l.map key).Nodup) :
    (sortByKey key l).Pairwise (fun a b => key a < key b) := by
  have hweak := sortByKey_sorted key l
  have hpm : ((sortByKey key l).map key).Perm (l.map key) :=
    (sortByKey_perm key l).map key
  have hnd' : ((sortByKey key l).map key).Nodup := hpm.symm.nodup hnd
  have hne : (sortByKey key l).Pairwise (fun a b => key a ≠ key b) :=
    List.pairwise_map.mp hnd'
  exact (hweak.and hne).imp (fun h => lt_of_le_of_ne h.1 h.2)

theorem sortByKey_eq_of_perm {α : Type} (key : α → String) {l₁ l₂ : List α}
    (hp : l₁.Perm l₂) (hnd : (l₁.map key).Nodup) :
    sortByKey key l₁ = sortByKey key l₂ := by
  haveI : IsAntisymm α (fun a b => key a < key b) :=
    ⟨fun a b h1 h2 => absurd (lt_trans h1 h2) (lt_irrefl _)⟩
  refine List.eq_of_perm_of_sorted (r := fun a b => key a < key b) ?_ ?_ ?_
  · exact (sortByKey_perm key l₁).trans (hp.trans (sortByKey_perm key l₂).symm)
  · exact sortByKey_sorted_lt key l₁ hnd
  · exact sortByKey_sorted_lt key l₂ ((hp.map key).nodup hnd)

theorem Service.metadataFrom_eq (s : Service) (e : List (String × Method))
    (hp : e.Perm s.methods)
    (hnd : (s.methods.map (fun p => p.2.metadata.Name)).Nodup) :
    s.metadataFrom e = s.metadata := by
  unfold Service.metadata Service.metadataFrom
  have hmp : (e.map (fun p => p.2.metadata)).Perm
      (s.methods.map (fun p => p.2.metadata)) := hp.map _
  have hnd₁ : ((e.map (fun p => p.2.metadata)).map methodMetadata.Name).Nodup := by
    rw [List.map_map]
    exact ((hp.map (fun p => p.2.metadata.Name)).symm).nodup
      (by simpa [Function.comp] using hnd)
  congr 1
  exact sortByKey_eq_of_perm methodMetadata.Name hmp hnd₁

theorem isSuitableMethod_eq_specEligible (m : RMethod)
    (hexp : m.exported = true) :
    isSuitableMethod m = specEligible m := by
  rcases m with ⟨name, exported, ins, outs⟩
  simp only at hexp
  subst hexp
  rcases ins with _ | ⟨i0, _ | ⟨i1, _ | ⟨i2, _ | ⟨i3, irest⟩⟩⟩⟩ <;>
    rcases outs with _ | ⟨o1, _ | ⟨o2, _ | ⟨o3, orest⟩⟩⟩ <;>
    simp [isSuitableMethod, specEligible] <;>
    cases h1 : i1 == Ty.context <;>
    first
      | rfl
      | (cases h2 : o1 == Ty.goError <;> simp_all <;> rfl)

/-- The type the codec actually decodes in `decodeInput`: the pointee for a
pointer-shaped input type, the type itself otherwise. -/
def coreTy : Ty → Ty
  | Ty.ptr e => e
  | t => t

/-- The shape in which a freshly decoded value reaches the callee, as
`decodeInput` produces it. -/
def shapeArg (ity : Ty) (v : Val) : Arg :=
  match ity with
  | Ty.ptr _ => Arg.byRef v
  | _ => Arg.byVal v

theorem decodeInput_eq (codec : Codec) (ity : Ty) (input : Bytes) :
    decodeInput codec ity input =
      if input.length == 0 then .error errNoInput
      else (codec.unmarshal (coreTy ity) input).map (shapeArg ity) := by
  cases ity <;> rfl

/-- The input-resolution stage of `method.invoke`: the argument the bound
function is called with (`none` when the method declares no input type). -/
def inputStage (m : Method) (codec : Codec) (bs : Bytes) :
    Except GoError (Option Arg) :=
  match m.input with
  | none => .ok none
  | some ity => (decodeInput codec ity bs).map some

theorem invoke_eq_inputStage (m : Method) (codec : Codec) (ctx : Ctx)
    (bs : Bytes) :
    m.invoke codec ctx bs =
      match inputStage m codec bs with
      | .error e => (none, some (errorfWW errDecodingInput e))
      | .ok args => finishCall m codec (m.fn ctx args) := by
  unfold Method.invoke inputStage
  cases m.input with
  | none => rfl
  | some ity =>
    rcases hd : decodeInput codec ity bs with e | arg <;> simp [hd, Except.map]

/-- Concatenation of a list of strings, for stating digest preimages. -/
def concatAll : List String → String
  | [] => ""
  | s :: l => s ++ concatAll l

theorem Hasher.foldl_write_acc {α : Type} (f : α → String) (l : List α)
    (h : Hasher) :
    (l.foldl (fun h m => h.write (f m)) h).acc =
      h.acc ++ concatAll (l.map f) := by
  induction l generalizing h with
  | nil => simp [concatAll, String.append_empty]
  | cons a l ih =>
    rw [List.foldl_cons, ih]
    simp only [Hasher.write, List.map_cons, concatAll]
    exact String.append_assoc _ _ _

theorem Server.metadataRun_eq (rpc : Server) (e : List (String × Service))
    (f : String → List (String × Method))
    (hp : e.Perm rpc.services)
    (hsn : (rpc.services.map (fun p => p.2.name)).Nodup)
    (hm : ∀ p ∈ rpc.services, (f p.1).Perm p.2.methods)
    (hmn : ∀ p ∈ rpc.services,
      (p.2.methods.map (fun q => q.2.metadata.Name)).Nodup) :
    rpc.metadataRun e f = rpc.metadata := by
  unfold Server.metadataRun Server.metadata
  have hmap : e.map (fun p => p.2.metadataFrom (f p.1)) =
      e.map (fun p => p.2.metadata) := by
    apply List.map_congr_left
    intro p hpe
    have hps : p ∈ rpc.services := hp.mem_iff.mp hpe
    exact Service.metadataFrom_eq p.2 (f p.1) (hm p hps) (hmn p hps)
  rw [hmap]
  congr 1
  apply sortByKey_eq_of_perm
  · exact hp.map _
  · rw [List.map_map]
    have : ((fun md => serviceMetadata.Name md) ∘ fun p : String × Service =>
        p.2.metadata) = fun p : String × Service => p.2.name := rfl
    rw [this]
    exact (hp.map (fun p => p.2.name)).symm.nodup hsn

/-- Identity stand-in for the abstract digest parameter in concrete
witnesses: it exposes the hashed byte string itself, so an equality proved
under it is an equality of digest preimages and therefore transfers to any
digest function, the real SHA-1 included. -/
def idDigest : String → String := fun s => s

/-- Test codec for the concrete witnesses: decoding fails exactly on the
body "bad", encoding fails exactly on the value token "unencodable". -/
def egCodec : Codec :=
  { unmarshal := fun _ bs =>
      if bs == "bad" then .error (GoError.sentinel 100 "invalid character")
      else .ok ("v:" ++ bs)
    marshal := fun v =>
      if v == "unencodable" then .error (GoError.sentinel 101 "unsupported type")
      else .ok ("enc:" ++ v) }

/-- Eligible declaration:
`func (c *Counter) Add(ctx context.Context, delta int64) (int64, error)`. -/
def addDecl : RMethod :=
  ⟨"Add", true, [Ty.named "*main.Counter", Ty.context, Ty.named "int64"],
    [Ty.named "int64", Ty.goError]⟩

/-- Ineligible declaration (two business parameters):
`func (c *T) Wrong(ctx context.Context, a int, b int) error`. -/
def wrongDecl : RMethod :=
  ⟨"Wrong", true,
    [Ty.named "*main.T", Ty.context, Ty.named "int", Ty.named "int"],
    [Ty.goError]⟩

/-- Eligible declaration with no input and no output:
`func (c *T) Ping(ctx context.Context) error`. -/
def pingDecl : RMethod :=
  ⟨"Ping", true, [Ty.named "*main.T", Ty.context], [Ty.goError]⟩

/-- Eligible declaration with an input and no output:
`func (c *T) Fail(ctx context.Context, msg string) error`. -/
def failDecl : RMethod :=
  ⟨"Fail", true, [Ty.named "*main.T", Ty.context, Ty.named "string"],
    [Ty.goError]⟩

/-- A business error some fixture methods return. -/
def egBoom : GoError := GoError.sentinel 200 "boom"

/-- Object with a single eligible method. -/
def egCounterObj : GoObj :=
  ⟨[⟨addDecl, fun _ _ => ("3", none)⟩]⟩

/-- Object whose single (exported) method is ineligible. -/
def egOnlyIneligibleObj : GoObj :=
  ⟨[⟨wrongDecl, fun _ _ => ("", none)⟩]⟩

/-- Object mixing eligible and ineligible methods; `Fail` always returns
the business error `egBoom`. -/
def egMixedObj : GoObj :=
  ⟨[⟨addDecl, fun _ _ => ("3", none)⟩,
    ⟨wrongDecl, fun _ _ => ("", none)⟩,
    ⟨pingDecl, fun _ _ => ("", none)⟩,
    ⟨failDecl, fun _ _ => ("", some egBoom)⟩]⟩

/-- A server with the mixed object registered as service "Calc". -/
def egServer : Server :=
  (NewServer.registerName idDigest "Calc" egMixedObj).1

/-- The `egServer` with the counter object also registered as "Counter". -/
def egServer2 : Server :=
  (egServer.registerName idDigest "Counter" egCounterObj).1

/-- Claim C1, counterexample: an object whose one exported method is
ineligible under the §4.1 filter has zero eligible methods, yet
`RegisterName` succeeds (returns no error) under a unique, non-reserved
name — `validServiceType` only checks `NumMethod() > 0`, so registration
does not fail with `ErrInvalidService` as the claim requires. -/
theorem C1_counterexample :
    (NewServer.registerName idDigest "Svc" egOnlyIneligibleObj).2 = none ∧
    (egOnlyIneligibleObj.methods.filter
      (fun om => isSuitableMethod om.decl)).length = 0 ∧
    "Svc" ≠ defaultRPCClassName ∧
    mapLookup NewServer.services "Svc" = none := by
  refine ⟨rfl, rfl, by decide, rfl⟩

/-- Claim C1, amended: under a unique, non-reserved name, registration
fails with `ErrInvalidService` exactly when the object's reflected method
set is empty (`NumMethod() == 0`); any object with at least one method — in
particular any object with an eligible method — registers successfully,
even when none of its methods is eligible. -/
theorem C1_registration (rpc : Server) (digest : String → String)
    (name : String) (obj : GoObj)
    (h1 : name ≠ defaultRPCClassName)
    (h2 : mapLookup rpc.services name = none) :
    (rpc.registerName digest name obj).2 =
      (if obj.methods.length = 0 then some ErrInvalidService else none) := by
  have hb : (name == defaultRPCClassName) = false := by
    simp [h1]
  unfold Server.registerName
  rw [hb]
  simp only [Bool.false_eq_true, if_false, h2, Option.isSome_none,
    validServiceType]
  by_cases hl : obj.methods.length = 0 <;> simp [hl]

/-- Witness for C1: registering the one-eligible-method counter object on a
fresh server under the unique, non-reserved name "Counter" succeeds. -/
theorem C1_witness :
    (NewServer.registerName idDigest "Counter" egCounterObj).2 = none := by
  have h := C1_registration NewServer idDigest "Counter" egCounterObj
    (by decide) rfl
  simpa using h

/-- Claim C10: registration is atomic — whenever `RegisterName` returns an
error the service map is unchanged — and the checks are ordered so the
reserved-name error wins over the already-registered error, which wins over
the invalid-service error. -/
theorem C10_registration_atomic (rpc : Server) (digest : String → String)
    (name : String) (obj : GoObj) :
    ((rpc.registerName digest name obj).2 ≠ none →
      (rpc.registerName digest name obj).1 = rpc) ∧
    (name = defaultRPCClassName →
      (rpc.registerName digest name obj).2 =
        some (errorfSW name ErrReservedServiceName)) ∧
    (name ≠ defaultRPCClassName → (mapLookup rpc.services name).isSome = true →
      (rpc.registerName digest name obj).2 =
        some (errorfSW name ErrServiceRegistered)) ∧
    (name ≠ defaultRPCClassName → mapLookup rpc.services name = none →
      validServiceType obj = false →
      (rpc.registerName digest name obj).2 = some ErrInvalidService) := by
  refine ⟨?_, ?_, ?_, ?_⟩
  · intro hne
    unfold Server.registerName at hne ⊢
    by_cases h1 : (name == defaultRPCClassName) = true
    · simp [h1]
    · by_cases h2 : (mapLookup rpc.services name).isSome = true
      · simp [h1, h2] at hne ⊢
      · by_cases h3 : validServiceType obj = true
        · simp [h1, h2, h3] at hne
        · simp [h1, h2, h3] at hne ⊢
  · intro h1
    unfold Server.registerName
    simp [h1]
  · intro h1 h2
    have hb : (name == defaultRPCClassName) = false := by simp [h1]
    unfold Server.registerName
    simp [hb, h2]
  · intro h1 h2 h3
    have hb : (name == defaultRPCClassName) = false := by simp [h1]
    unfold Server.registerName
    simp [hb, h2, h3]

/-- Witness for C10: on a fresh server, registering under the reserved name
"RPC" fails with the reserved-name error and leaves the server unchanged. -/
theorem C10_witness :
    (NewServer.registerName idDigest "RPC" egCounterObj).2 =
      some (errorfSW "RPC" ErrReservedServiceName) ∧
    (NewServer.registerName idDigest "RPC" egCounterObj).1 = NewServer := by
  have h := C10_registration_atomic NewServer idDigest "RPC" egCounterObj
  have he := h.2.1 rfl
  exact ⟨he, h.1 (by rw [he]; exact Option.some_ne_none _)⟩

theorem newService_methods (digest : String → String) (name : String)
    (obj : GoObj) :
    (newService digest name obj).methods =
      (obj.methods.filter (fun om => isSuitableMethod om.decl)).map
        (fun om => (om.decl.name, newMethod om.decl om.impl)) := rfl

theorem listAny_congr {α : Type} {p q : α → Bool} (l : List α)
    (h : ∀ a ∈ l, p a = q a) : l.any p = l.any q := by
  induction l with
  | nil => rfl
  | cons a l ih =>
    simp only [List.any_cons, h a (by simp), ih (fun a ha => h a (by simp [ha]))]

theorem mapLookup_discovered (l : List ObjMethod) (n : String) :
    (mapLookup ((l.filter (fun om => isSuitableMethod om.decl)).map
      (fun om => (om.decl.name, newMethod om.decl om.impl))) n).isSome =
      l.any (fun om => om.decl.name == n && isSuitableMethod om.decl) := by
  induction l with
  | nil => rfl
  | cons a l ih =>
    by_cases hsuit : isSuitableMethod a.decl = true
    · by_cases hname : (a.decl.name == n) = true
      · simp [mapLookup, List.filter_cons, hsuit, List.find?_cons, hname]
      · rw [Bool.not_eq_true] at hname
        simp only [List.filter_cons, hsuit, if_true, List.map_cons,
          List.any_cons, hname, Bool.false_and, Bool.false_or]
        rw [← ih]
        simp [mapLookup, List.find?_cons, hname]
    · rw [Bool.not_eq_true] at hsuit
      simp only [List.filter_cons, hsuit, Bool.false_eq_true, if_false,
        List.any_cons, Bool.and_false, Bool.false_or]
      exact ih

/-- Claim C2: a method of a registered object enters the service's method
set exactly when it satisfies the §4.1 eligibility rule (stated from the
spec's words as `specEligible`; the exportedness hypothesis reflects that
Go reflection surfaces only exported methods on concrete types), and
ineligible methods are silently skipped: registration succeeds exactly when
the name is non-reserved and unused and the object has any method at all,
irrespective of eligibility. -/
theorem C2_discovery (digest : String → String) (name n : String)
    (obj : GoObj) (rpc : Server)
    (hexp : ∀ om ∈ obj.methods, om.decl.exported = true) :
    ((mapLookup (newService digest name obj).methods n).isSome =
      obj.methods.any (fun om => om.decl.name == n && specEligible om.decl)) ∧
    ((rpc.registerName digest name obj).2 = none ↔
      (name ≠ defaultRPCClassName ∧ mapLookup rpc.services name = none ∧
        obj.methods ≠ [])) := by
  constructor
  · rw [newService_methods, mapLookup_discovered]
    apply listAny_congr
    intro om hom
    rw [isSuitableMethod_eq_specEligible om.decl (hexp om hom)]
  · unfold Server.registerName
    split_ifs with h1 h2 h3
    · simp [beq_iff_eq.mp h1]
    · rw [Option.isSome_iff_ne_none] at h2
      simp [h2]
    · rw [Bool.not_eq_true'] at h3
      unfold validServiceType at h3
      simp only [decide_eq_false_iff_not, not_lt, Nat.le_zero,
        List.length_eq_zero] at h3
      simp [h3]
    · have hn : name ≠ defaultRPCClassName := fun he => h1 (by simp [he])
      have hmap : mapLookup rpc.services name = none :=
        Option.not_isSome_iff_eq_none.mp h2
      have hval : validServiceType obj = true := by
        rcases Bool.eq_false_or_eq_true (validServiceType obj) with h | h
        · exact h
        · exact absurd (by simp [h]) h3
      unfold validServiceType at hval
      simp only [decide_eq_true_eq] at hval
      simp [hn, hmap, List.ne_nil_of_length_pos hval]


/-- Witness for C2: in the mixed object's service, the eligible method
"Add" is discovered and the ineligible method "Wrong" is not. -/
theorem C2_witness :
    (mapLookup (newService idDigest "Calc" egMixedObj).methods "Add").isSome
      = true ∧
    (mapLookup (newService idDigest "Calc" egMixedObj).methods "Wrong").isSome
      = false := by
  have h1 := (C2_discovery idDigest "Calc" "Add" egMixedObj NewServer
    (by decide)).1
  have h2 := (C2_discovery idDigest "Calc" "Wrong" egMixedObj NewServer
    (by decide)).1
  exact ⟨h1.trans (by decide), h2.trans (by decide)⟩

theorem serveHTTP_post (rpc : Server) (codec : Codec) (ctx : Ctx)
    (r : HttpRequest) (hpost : r.verb = "POST") :
    rpc.serveHTTP codec ctx r = rpc.servePost codec ctx r := by
  unfold Server.serveHTTP
  cases rpc.serveClient <;> simp [hpost]

/-- Claim C3: on a POST request, a missing service identifier yields the
BadRequest-class `errNoService` reply and a missing method identifier the
BadRequest-class `errNoMethod` reply, both before any dispatch; an unknown
service yields the not-found-class 404 reply carrying `errServiceNotFound`,
a known service with an unknown method the 404 reply carrying
`errMethodNotFound`; otherwise `call` delegates to the resolved method's
invoker. -/
theorem C3_routing (rpc : Server) (codec : Codec) (ctx : Ctx)
    (r : HttpRequest) (hpost : r.verb = "POST") :
    (r.queryService = "" →
      rpc.serveHTTP codec ctx r = httpError 400 (some errNoService)) ∧
    (r.queryService ≠ "" → r.queryMethod = "" →
      rpc.serveHTTP codec ctx r = httpError 400 (some errNoMethod)) ∧
    (r.queryService ≠ "" → r.queryMethod ≠ "" →
      mapLookup rpc.services r.queryService = none →
      rpc.serveHTTP codec ctx r =
        httpError 404 (some (errorfWQ errServiceNotFound r.queryService))) ∧
    (∀ s, r.queryService ≠ "" → r.queryMethod ≠ "" →
      mapLookup rpc.services r.queryService = some s →
      mapLookup s.methods r.queryMethod = none →
      rpc.serveHTTP codec ctx r =
        httpError 404 (some (errorfWQ errMethodNotFound r.queryMethod))) ∧
    (∀ s m, mapLookup rpc.services r.queryService = some s →
      mapLookup s.methods r.queryMethod = some m →
      rpc.call codec ctx r.queryService r.queryMethod r.body =
        m.invoke codec ctx r.body) := by
  have hserve := serveHTTP_post rpc codec ctx r hpost
  refine ⟨?_, ?_, ?_, ?_, ?_⟩
  · intro hs
    rw [hserve]
    unfold Server.servePost
    simp [hpost, hs]
  · intro hs hm
    rw [hserve]
    unfold Server.servePost
    simp [hpost, hs, hm]
  · intro hs hm hlk
    rw [hserve]
    unfold Server.servePost
    have hcall : rpc.call codec ctx r.queryService r.queryMethod r.body =
        (none, some (errorfWQ errServiceNotFound r.queryService)) := by
      unfold Server.call
      rw [hlk]
    simp [hpost, hs, hm, hcall, errorsIs, errorfWQ, errServiceNotFound,
      GoError.sentinel, httpError]
  · intro s hs hm hlks hlkm
    rw [hserve]
    unfold Server.servePost
    have hcall : rpc.call codec ctx r.queryService r.queryMethod r.body =
        (none, some (errorfWQ errMethodNotFound r.queryMethod)) := by
      unfold Server.call
      simp only [hlks, hlkm]
    simp [hpost, hs, hm, hcall, errorsIs, errorfWQ, errMethodNotFound,
      errServiceNotFound, GoError.sentinel, httpError]
  · intro s m hlks hlkm
    unfold Server.call
    simp only [hlks, hlkm]

/-- Witness for C3: on the example server, a POST for the unregistered
service "Nope" yields the 404 service-not-found reply. -/
theorem C3_witness :
    egServer.serveHTTP egCodec () ⟨"POST", "Nope", "X", ""⟩ =
      httpError 404 (some (errorfWQ errServiceNotFound "Nope")) :=
  (C3_routing egServer egCodec () ⟨"POST", "Nope", "X", ""⟩ rfl).2.2.1
    (by decide) (by decide) rfl

theorem httpError_status (code : Nat) (x : Option GoError) :
    (httpError code x).status = code := by
  cases x <;> rfl

theorem errorsIs_sentinel (e : GoError) (i : Nat) (m : String) :
    errorsIs e (GoError.sentinel i m) = e.bases.contains i := by
  simp [errorsIs, GoError.sentinel]

theorem errorsIs_errorfWW_sentinel (a e : GoError) (i : Nat) (m : String)
    (hai : a.bases.contains i = false) :
    errorsIs (errorfWW a e) (GoError.sentinel i m) =
      errorsIs e (GoError.sentinel i m) := by
  rw [errorsIs_sentinel, errorsIs_sentinel]
  show (a.bases ++ e.bases).contains i = _
  simp [List.contains_eq_any_beq, List.any_append] at hai ⊢
  intro hmem
  exact absurd hmem hai

theorem length_beq_zero_eq_false (s : String) (h : s ≠ "") :
    (s.length == 0) = false := by
  have hd : s.data ≠ [] := fun hn => h (by cases s; simp_all)
  have hne : s.length ≠ 0 := by
    intro hz
    exact hd (List.length_eq_zero.mp hz)
  exact beq_eq_false_iff_ne.mpr hne

theorem invoke_empty_body (m : Method) (codec : Codec) (ctx : Ctx)
    (ity : Ty) (hin : m.input = some ity) :
    m.invoke codec ctx "" =
      (none, some (errorfWW errDecodingInput errNoInput)) := by
  unfold Method.invoke
  simp only [hin, decodeInput_eq]
  rfl

theorem invoke_decode_error (m : Method) (codec : Codec) (ctx : Ctx)
    (ity : Ty) (bs : Bytes) (e : GoError) (hin : m.input = some ity)
    (hbs : bs ≠ "") (herr : codec.unmarshal (coreTy ity) bs = .error e) :
    m.invoke codec ctx bs = (none, some (errorfWW errDecodingInput e)) := by
  unfold Method.invoke
  simp only [hin, decodeInput_eq, length_beq_zero_eq_false bs hbs,
    Bool.false_eq_true, if_false, herr, Except.map]

/-- Claim C4: for a method declaring an input type, an empty body yields the
`errNoInput` error (wrapped by `invoke` in `errDecodingInput`, so
`errors.Is(err, errNoInput)` still holds), and a non-empty body the codec
cannot decode yields an `errDecodingInput` error wrapping the codec's
error; both results are fixed for every bound function `m.fn`, so the
underlying method is never invoked.  A successfully decoded value reaches
the callee freshly allocated in its declared shape (`byRef` for a
pointer-shaped input, `byVal` after dereferencing otherwise).  Through
`ServeHTTP`, both failures map to the caller-fault 400 class. -/
theorem C4_input_errors (m : Method) (codec : Codec) (ctx : Ctx)
    (ity : Ty) (hin : m.input = some ity) :
    (m.invoke codec ctx "" =
      (none, some (errorfWW errDecodingInput errNoInput))) ∧
    (errorsIs (errorfWW errDecodingInput errNoInput) errNoInput = true) ∧
    (∀ bs e, bs ≠ "" → codec.unmarshal (coreTy ity) bs = .error e →
      m.invoke codec ctx bs = (none, some (errorfWW errDecodingInput e)) ∧
      errorsIs (errorfWW errDecodingInput e) errDecodingInput = true ∧
      errorsIs (errorfWW errDecodingInput e) e = true) ∧
    (∀ bs v, bs ≠ "" → codec.unmarshal (coreTy ity) bs = .ok v →
      m.invoke codec ctx bs =
        finishCall m codec (m.fn ctx (some (shapeArg ity v)))) ∧
    (∀ rpc : Server, ∀ s : Service, ∀ sname mname : String,
      sname ≠ "" → mname ≠ "" →
      mapLookup rpc.services sname = some s →
      mapLookup s.methods mname = some m →
      ((rpc.serveHTTP codec ctx ⟨"POST", sname, mname, ""⟩).status = 400 ∧
      (∀ bs e, bs ≠ "" → codec.unmarshal (coreTy ity) bs = .error e →
        errorsIs e errServiceNotFound = false →
        errorsIs e errMethodNotFound = false →
        errorsIs e errEncodingOutput = false →
        (rpc.serveHTTP codec ctx ⟨"POST", sname, mname, bs⟩).status = 400))) := by
  refine ⟨invoke_empty_body m codec ctx ity hin, by decide, ?_, ?_, ?_⟩
  · intro bs e hbs herr
    refine ⟨invoke_decode_error m codec ctx ity bs e hin hbs herr, rfl, ?_⟩
    show e.bases.all
      (fun b => (errDecodingInput.bases ++ e.bases).contains b) = true
    rw [List.all_eq_true]
    intro b hb
    exact List.elem_eq_true_of_mem (List.mem_append_right _ hb)
  · intro bs v hbs hok
    unfold Method.invoke
    simp only [hin, decodeInput_eq, length_beq_zero_eq_false bs hbs,
      Bool.false_eq_true, if_false, hok, Except.map]
  · intro rpc s sname mname hs hm hlks hlkm
    constructor
    · have hserve := serveHTTP_post rpc codec ctx ⟨"POST", sname, mname, ""⟩ rfl
      rw [hserve]
      unfold Server.servePost
      have hcall : rpc.call codec ctx sname mname "" =
          (none, some (errorfWW errDecodingInput errNoInput)) := by
        unfold Server.call
        simp only [hlks, hlkm]
        exact invoke_empty_body m codec ctx ity hin
      simp only [hcall]
      have c1 : errorsIs (errorfWW errDecodingInput errNoInput)
          errServiceNotFound = false := by decide
      have c2 : errorsIs (errorfWW errDecodingInput errNoInput)
          errMethodNotFound = false := by decide
      have c3 : errorsIs (errorfWW errDecodingInput errNoInput)
          errEncodingOutput = false := by decide
      simp [hs, hm, c1, c2, c3, httpError_status]
      cases rpc.errorFilter <;> simp [c1, c2, c3, httpError_status]
    · intro bs e hbs herr hsnf hmnf heout
      have hserve := serveHTTP_post rpc codec ctx ⟨"POST", sname, mname, bs⟩ rfl
      rw [hserve]
      unfold Server.servePost
      have hcall : rpc.call codec ctx sname mname bs =
          (none, some (errorfWW errDecodingInput e)) := by
        unfold Server.call
        simp only [hlks, hlkm]
        exact invoke_decode_error m codec ctx ity bs e hin hbs herr
      simp only [hcall]
      have h1 : errorsIs (errorfWW errDecodingInput e) errServiceNotFound
          = false := by
        rw [show errServiceNotFound = GoError.sentinel 4 "could not find service"
          from rfl, errorsIs_errorfWW_sentinel _ _ _ _ (by decide)]
        exact hsnf
      have h2 : errorsIs (errorfWW errDecodingInput e) errMethodNotFound
          = false := by
        rw [show errMethodNotFound = GoError.sentinel 5 "could not find method"
          from rfl, errorsIs_errorfWW_sentinel _ _ _ _ (by decide)]
        exact hmnf
      have h3 : errorsIs (errorfWW errDecodingInput e) errEncodingOutput
          = false := by
        rw [show errEncodingOutput = GoError.sentinel 10 "encoding output"
          from rfl, errorsIs_errorfWW_sentinel _ _ _ _ (by decide)]
        exact heout
      simp [hs, hm, h1, h2, h3, httpError_status]
      cases rpc.errorFilter <;> simp [httpError_status]

/-- Witness for C4: on the example server, calling "Calc"::"Fail" with an
empty body and with the undecodable body "bad" both yield status 400. -/
theorem C4_witness :
    (egServer.serveHTTP egCodec () ⟨"POST", "Calc", "Fail", ""⟩).status = 400 ∧
    (egServer.serveHTTP egCodec () ⟨"POST", "Calc", "Fail", "bad"⟩).status
      = 400 := by
  have h := (C4_input_errors (newMethod failDecl (fun _ _ => ("", some egBoom)))
    egCodec () (Ty.named "string") rfl).2.2.2.2 egServer _ "Calc" "Fail"
    (by decide) (by decide) rfl rfl
  exact ⟨h.1, h.2 "bad" (GoError.sentinel 100 "invalid character")
    (by decide) rfl (by decide) (by decide) (by decide)⟩

/-- Claim C5: when the bound method returns a non-nil error, `invoke`
returns that error verbatim with no output — the reply is never encoded or
returned (the result is the same for every codec `marshal`); through
`ServeHTTP`, the failure envelope's message equals the business error's
message without a filter, the filter's replacement message with one, and
the generic `ErrMethodErrored` sentinel message when the filter returns
nil.  The Is-hypotheses on the three routing/encoding sentinels hold for
every error user code can actually return, those sentinel values being
unexported. -/
theorem C5_business_error (m : Method) (codec : Codec) (ctx : Ctx)
    (bs : Bytes) (args : Option Arg) (v : Val) (ebiz : GoError)
    (hargs : inputStage m codec bs = .ok args)
    (hfn : m.fn ctx args = (v, some ebiz)) :
    m.invoke codec ctx bs = (none, some ebiz) ∧
    (∀ rpc : Server, ∀ s : Service, ∀ sname mname : String,
      sname ≠ "" → mname ≠ "" →
      mapLookup rpc.services sname = some s →
      mapLookup s.methods mname = some m →
      errorsIs ebiz errServiceNotFound = false →
      errorsIs ebiz errMethodNotFound = false →
      errorsIs ebiz errEncodingOutput = false →
      ((rpc.errorFilter = none →
        rpc.serveHTTP codec ctx ⟨"POST", sname, mname, bs⟩ =
          errorReply ebiz.msg 400) ∧
      (∀ f e2, rpc.errorFilter = some f → f ebiz = some e2 →
        rpc.serveHTTP codec ctx ⟨"POST", sname, mname, bs⟩ =
          errorReply e2.msg 400) ∧
      (∀ f, rpc.errorFilter = some f → f ebiz = none →
        rpc.serveHTTP codec ctx ⟨"POST", sname, mname, bs⟩ =
          errorReply ErrMethodErrored.msg 400))) := by
  have hinv : m.invoke codec ctx bs = (none, some ebiz) := by
    rw [invoke_eq_inputStage, hargs]
    simp [finishCall, hfn]
  refine ⟨hinv, ?_⟩
  intro rpc s sname mname hs hm hlks hlkm hsnf hmnf heout
  have hserve := serveHTTP_post rpc codec ctx ⟨"POST", sname, mname, bs⟩ rfl
  have hcall : rpc.call codec ctx sname mname bs = (none, some ebiz) := by
    unfold Server.call
    simp only [hlks, hlkm]
    exact hinv
  refine ⟨?_, ?_, ?_⟩
  · intro hfilt
    rw [hserve]
    unfold Server.servePost
    simp only [hcall]
    simp [hs, hm, hsnf, hmnf, heout, hfilt, httpError]
  · intro f e2 hfilt hfe
    rw [hserve]
    unfold Server.servePost
    simp only [hcall]
    simp [hs, hm, hsnf, hmnf, heout, hfilt, hfe, httpError]
  · intro f hfilt hfe
    rw [hserve]
    unfold Server.servePost
    simp only [hcall]
    simp [hs, hm, hsnf, hmnf, heout, hfilt, hfe, httpError]

/-- Witness for C5: on the example server without a filter, "Calc"::"Fail"
replies with the 400 envelope carrying the business message "boom". -/
theorem C5_witness :
    egServer.serveHTTP egCodec () ⟨"POST", "Calc", "Fail", "x"⟩ =
      errorReply "boom" 400 := by
  have h := (C5_business_error
    (newMethod failDecl (fun _ _ => ("", some egBoom)))
    egCodec () "x" (some (Arg.byVal "v:x")) "" egBoom rfl rfl).2
    egServer _ "Calc" "Fail" (by decide) (by decide) rfl rfl
    (by decide) (by decide) (by decide)
  exact h.1 rfl

/-- Claim C9: a method declaring no input type is invoked with only the
context — the request body is ignored entirely (the result is the same for
every body) — and dispatching a no-input/no-output method whose error
return is nil yields the 200 reply whose output field is the codec's null
value. -/
theorem C9_no_input (m : Method) (codec : Codec) (ctx : Ctx)
    (hin : m.input = none) :
    (∀ bs, m.invoke codec ctx bs = finishCall m codec (m.fn ctx none)) ∧
    (m.output = none → ∀ v, m.fn ctx none = (v, none) →
      ∀ rpc : Server, ∀ s : Service, ∀ sname mname : String, ∀ bs : Bytes,
        sname ≠ "" → mname ≠ "" →
        mapLookup rpc.services sname = some s →
        mapLookup s.methods mname = some m →
        rpc.serveHTTP codec ctx ⟨"POST", sname, mname, bs⟩ =
          httpOK nullJSON) := by
  have hinv : ∀ bs, m.invoke codec ctx bs = finishCall m codec (m.fn ctx none) := by
    intro bs
    unfold Method.invoke
    simp only [hin]
  refine ⟨hinv, ?_⟩
  intro hout v hfn rpc s sname mname bs hs hm hlks hlkm
  have hcall : rpc.call codec ctx sname mname bs = (none, none) := by
    unfold Server.call
    simp only [hlks, hlkm, hinv bs]
    simp [finishCall, hfn, hout]
  have hserve := serveHTTP_post rpc codec ctx ⟨"POST", sname, mname, bs⟩ rfl
  rw [hserve]
  unfold Server.servePost
  simp only [hcall]
  simp [hs, hm]

/-- Witness for C9: on the example server, "Calc"::"Ping" with an empty
body replies 200 with the null output. -/
theorem C9_witness :
    egServer.serveHTTP egCodec () ⟨"POST", "Calc", "Ping", ""⟩ =
      httpOK nullJSON := by
  have h := (C9_no_input (newMethod pingDecl (fun _ _ => ("", none)))
    egCodec () rfl).2 rfl "" rfl egServer _ "Calc" "Ping" ""
    (by decide) (by decide) rfl rfl
  exact h

/-- Claim C6: the error filter is applied only to caller/business-fault
dispatch errors: not-found and encoding-output responses are identical for
every configured filter (the filter is never invoked for them),
`errEncodingOutput` maps to the server-fault 500 class, and a filter that
returns nil is replaced by the generic `ErrMethodErrored` sentinel message
rather than being treated as success. -/
theorem C6_filter_scope (rpc : Server) (codec : Codec) (ctx : Ctx)
    (r : HttpRequest) (err : GoError) (buf : Option Bytes)
    (hpost : r.verb = "POST") (hs : r.queryService ≠ "")
    (hm : r.queryMethod ≠ "")
    (hcall : rpc.call codec ctx r.queryService r.queryMethod r.body =
      (buf, some err)) :
    (errorsIs err errServiceNotFound = true ∨
        errorsIs err errMethodNotFound = true →
      ∀ g, Server.serveHTTP { rpc with errorFilter := g } codec ctx r =
        httpError 404 (some err)) ∧
    (errorsIs err errServiceNotFound = false →
      errorsIs err errMethodNotFound = false →
      errorsIs err errEncodingOutput = true →
      ∀ g, Server.serveHTTP { rpc with errorFilter := g } codec ctx r =
        httpError 500 (some err)) ∧
    (errorsIs err errServiceNotFound = false →
      errorsIs err errMethodNotFound = false →
      errorsIs err errEncodingOutput = false →
      ∀ f, rpc.errorFilter = some f → f err = none →
        rpc.serveHTTP codec ctx r = errorReply ErrMethodErrored.msg 400) := by
  refine ⟨?_, ?_, ?_⟩
  · intro hnf g
    have hcall' : Server.call { rpc with errorFilter := g } codec ctx
        r.queryService r.queryMethod r.body = (buf, some err) := hcall
    rw [serveHTTP_post _ codec ctx r hpost]
    unfold Server.servePost
    simp only [hcall']
    rcases hnf with h | h <;> simp [hpost, hs, hm, h]
  · intro hsnf hmnf heout g
    have hcall' : Server.call { rpc with errorFilter := g } codec ctx
        r.queryService r.queryMethod r.body = (buf, some err) := hcall
    rw [serveHTTP_post _ codec ctx r hpost]
    unfold Server.servePost
    simp only [hcall']
    simp [hpost, hs, hm, hsnf, hmnf, heout]
  · intro hsnf hmnf heout f hfilt hfe
    rw [serveHTTP_post _ codec ctx r hpost]
    unfold Server.servePost
    simp only [hcall]
    simp [hpost, hs, hm, hsnf, hmnf, heout, hfilt, hfe, httpError]

/-- Witness for C6: on the example server with any filter installed, a
method-not-found dispatch still replies 404 with the unfiltered message. -/
theorem C6_witness :
    Server.serveHTTP
        { egServer with errorFilter := some (fun _ => none) } egCodec ()
        ⟨"POST", "Calc", "Absent", ""⟩ =
      httpError 404 (some (errorfWQ errMethodNotFound "Absent")) := by
  have h := (C6_filter_scope egServer egCodec ()
    ⟨"POST", "Calc", "Absent", ""⟩ (errorfWQ errMethodNotFound "Absent")
    none rfl (by decide) (by decide) rfl).1
  exact h (Or.inr (by decide)) (some (fun _ => none))

/-- Claim C7, amended: the method version is the digest of the
concatenation of the method name, the input type identity if present and
the output type identity if present; the service version is the digest of
the service name followed by the concatenation of its methods' versions in
the (name-sorted) order the metadata lists them; and re-deriving the
service version from a fresh metadata assembly over an unchanged registry
(any map enumeration) reproduces the version computed at registration.
Because the hashed fields are concatenated without separators, the method
version differs only when the concatenated byte string differs, not
whenever the name or a type identity differs. -/
theorem C7_versions (digest : String → String) (md : methodMetadata)
    (smd : serviceMetadata) (name : String) (obj : GoObj)
    (e : List (String × Method))
    (hp : e.Perm (newService digest name obj).methods)
    (hnd : ((newService digest name obj).methods.map
      (fun p => p.2.metadata.Name)).Nodup) :
    calculateMethodVersion digest md =
      digest (md.Name ++
        (match md.Input with | some t => t.str | none => "") ++
        (match md.Output with | some t => t.str | none => "")) ∧
    calculateServiceVersion digest smd =
      digest (smd.Name ++ concatAll (smd.Methods.map
        (fun mm => calculateMethodVersion digest mm))) ∧
    calculateServiceVersion digest
        ((newService digest name obj).metadataFrom e) =
      (newService digest name obj).version := by
  refine ⟨?_, ?_, ?_⟩
  · rcases md with ⟨n, i, o⟩
    cases i <;> cases o <;>
      simp [calculateMethodVersion, Hasher.new, Hasher.write, Hasher.sum,
        String.empty_append, String.append_empty, String.append_assoc]
  · unfold calculateServiceVersion
    rw [Hasher.sum, Hasher.foldl_write_acc]
    rw [show (Hasher.new.write smd.Name).acc = "" ++ smd.Name from rfl]
    rw [String.empty_append]
  · rw [Service.metadataFrom_eq _ e hp hnd]
    rfl

/-- Witness for C7: the version of the method metadata (name "Add", input
`int64`, output `int64`) under the preimage-exposing digest is the
concatenated identity string. -/
theorem C7_witness :
    calculateMethodVersion idDigest
      ⟨"Add", some (Ty.named "int64"), some (Ty.named "int64")⟩ =
      idDigest ("Add" ++ "int64" ++ "int64") := by
  have h := C7_versions idDigest
    ⟨"Add", some (Ty.named "int64"), some (Ty.named "int64")⟩
    ⟨"S", [], ""⟩ "Counter" egCounterObj
    (newService idDigest "Counter" egCounterObj).methods
    (List.Perm.refl _) (by decide)
  exact h.1

/-- Claim C7, counterexample: the digest preimage concatenates name and
type identities without separators, so the method metadata named "Fooint"
with no types and the one named "Foo" with input type `int` hash the same
bytes and receive the same version although both the name and the input
type identity differ.  The equality is shown under the preimage-exposing
digest `idDigest`; since the written bytes coincide, it holds for every
digest function of those bytes, the real SHA-1 included. -/
theorem C7_counterexample :
    (⟨"Fooint", none, none⟩ : methodMetadata).Name ≠
      (⟨"Foo", some (Ty.named "int"), none⟩ : methodMetadata).Name ∧
    (⟨"Fooint", none, none⟩ : methodMetadata).Input ≠
      (⟨"Foo", some (Ty.named "int"), none⟩ : methodMetadata).Input ∧
    calculateMethodVersion idDigest ⟨"Fooint", none, none⟩ =
      calculateMethodVersion idDigest ⟨"Foo", some (Ty.named "int"), none⟩ := by
  refine ⟨by decide, by decide, by decide⟩

/-- Claim C8: client generation is a pure function of the assembled
metadata, and metadata assembly is deterministic over an unchanged
registry: any two generation runs — each enumerating the service map and
every method map in an arbitrary order — render byte-identical source, so
repeating generation any number of times (50 included) yields identical
output. -/
theorem C8_generation_deterministic (render : serverMetadata → String)
    (rpc : Server) (e₁ e₂ : List (String × Service))
    (f₁ f₂ : String → List (String × Method))
    (hp₁ : e₁.Perm rpc.services) (hp₂ : e₂.Perm rpc.services)
    (hsn : (rpc.services.map (fun p => p.2.name)).Nodup)
    (hm₁ : ∀ p ∈ rpc.services, (f₁ p.1).Perm p.2.methods)
    (hm₂ : ∀ p ∈ rpc.services, (f₂ p.1).Perm p.2.methods)
    (hmn : ∀ p ∈ rpc.services,
      (p.2.methods.map (fun q => q.2.metadata.Name)).Nodup) :
    generateClientFromTemplate render (rpc.metadataRun e₁ f₁) =
      generateClientFromTemplate render (rpc.metadataRun e₂ f₂) := by
  unfold generateClientFromTemplate
  rw [Server.metadataRun_eq rpc e₁ f₁ hp₁ hsn hm₁ hmn,
    Server.metadataRun_eq rpc e₂ f₂ hp₂ hsn hm₂ hmn]

/-- Canonical method-map enumeration of a registered service of
`egServer2`, for the C8 witness. -/
def egMethodsOf (n : String) : List (String × Method) :=
  match mapLookup egServer2.services n with
  | some s => s.methods
  | none => []

/-- Witness for C8: on the two-service example server, enumerating the
service map forwards or backwards — and each method map forwards or
backwards — renders the same client text. -/
theorem C8_witness :
    generateClientFromTemplate
        (fun md => concatAll (md.Services.map (fun s => s.Name)))
        (egServer2.metadataRun egServer2.services egMethodsOf) =
      generateClientFromTemplate
        (fun md => concatAll (md.Services.map (fun s => s.Name)))
        (egServer2.metadataRun egServer2.services.reverse
          (fun n => (egMethodsOf n).reverse)) := by
  apply C8_generation_deterministic
  · exact List.Perm.refl _
  · exact List.reverse_perm _
  · decide
  · intro p hp
    cases hp with
    | head =>
      exact List.Perm.refl ((("Calc", newService idDigest "Calc" egMixedObj)).2.methods)
    | tail _ hp' =>
      cases hp' with
      | head =>
        exact List.Perm.refl
          ((("Counter", newService idDigest "Counter" egCounterObj)).2.methods)
      | tail _ hp'' => cases hp''
  · intro p hp
    cases hp with
    | head => exact List.reverse_perm _
    | tail _ hp' =>
      cases hp' with
      | head => exact List.reverse_perm _
      | tail _ hp'' => cases hp''
  · intro p hp
    cases hp with
    | head => decide
    | tail _ hp' =>
      cases hp' with
      | head => decide
      | tail _ hp'' => cases hp''

end TurboRPC
